import Mathlib

/-! webfetch-clean: the cleaning pipeline of `cleaner.go` and the format switch of `converter.go`

`CleanHTML` parses markup with goquery, mutates the parsed tree through a fixed sequence of
`Find(...).Remove()` passes, strips attributes and serialises the tree again.  The functions of
this repository are embedded as functions on an immutable tree.

* Go strings are lists of characters.
* A document is the sibling sequence below its document node; nodes are linked by first child
  and next sibling as in `html.Node`.
* The library calls made by the source (parser, serialiser, fragment parser, `strings.ToLower`,
  the Markdown converter) are the fields of `Lib`, so that every general statement holds for
  whatever the libraries compute.  The only law assumed is that `strings.ToLower` is ASCII
  lowercasing on ASCII text.
* The selectors the source compiles are functions of a node and its ancestors; `findRemove`
  is `Find(sel).Remove()`.
* `sampleLib` is one concrete library, used to evaluate the pipeline on closed inputs.
-/

namespace WebfetchClean

set_option maxRecDepth 100000

/-- A Go string. -/
abbrev Str := List Char

/-- Whether `s` begins with `p` (`strings.HasPrefix`). -/
def startsWith : Str → Str → Bool
  | _, [] => true
  | [], _ :: _ => false
  | c :: s, p :: ps => c == p && startsWith s ps

/-- Substring test, `strings.Contains`. -/
def Contains : Str → Str → Bool
  | [], sub => sub.isEmpty
  | c :: s, sub => startsWith (c :: s) sub || Contains s sub

/-- An attribute of a node, `html.Attribute`. -/
structure Attribute where
  Namespace : Str
  Key : Str
  Val : Str
  deriving DecidableEq, Repr

/-- The node kinds that occur below the document node, `html.NodeType`. -/
inductive NodeType where
  | TextNode
  | ElementNode
  | CommentNode
  | DoctypeNode
  deriving DecidableEq, Repr

/-- The payload of an `html.Node`: kind, tag name or text, and attributes. -/
structure Node where
  Kind : NodeType
  Data : Str
  Attr : List Attribute
  deriving DecidableEq, Repr

/-- A sequence of sibling nodes with their subtrees, linked as in `html.Node` by `FirstChild`
and `NextSibling`.  A document is the sibling sequence below its document node. -/
inductive Tree where
  | nil : Tree
  | node (n : Node) (firstChild nextSibling : Tree) : Tree
  deriving DecidableEq, Repr

/-- The library functions `CleanHTML` and `ConvertToFormat` call. -/
structure Lib where
  /-- Case folding, `strings.ToLower`. -/
  ToLower : Str → Str
  /-- On text of ASCII characters `strings.ToLower` maps `A`..`Z` to `a`..`z` and keeps every
  other character. -/
  ToLower_ascii : ∀ s : Str, (∀ c ∈ s, c.toNat < 128) → ToLower s = s.map Char.toLower
  /-- The parser behind `goquery.NewDocumentFromReader`: the children of the document node, or
  the error text. -/
  parse : Str → Except Str Tree
  /-- The serialiser behind `Selection.Html`: `html.Render` over a sibling sequence. -/
  render : Tree → Except Str Str
  /-- The fragment parser behind `Selection.SetHtml`: `html.ParseFragment` with a `body`
  element as context. -/
  parseFragment : Str → Tree
  /-- The Markdown converter, `converter.ConvertString`. -/
  ConvertString : Str → Except Str Str

/-- A compiled selector: a test on a node given its ancestors, nearest first. -/
abbrev Selector := List Node → Node → Bool

/-- The tag selector `tag`. -/
def tagSelector (tag : Str) : Selector :=
  fun _ n => n.Kind == NodeType.ElementNode && n.Data == tag

/-- The universal selector `*`: every element. -/
def universalSelector : Selector :=
  fun _ n => n.Kind == NodeType.ElementNode

/-- Whether an element has an attribute named `key` whose value passes `f`
(cascadia `matchAttribute`). -/
def matchAttribute (n : Node) (key : Str) (f : Str → Bool) : Bool :=
  n.Kind == NodeType.ElementNode && n.Attr.any (fun a => a.Key == key && f a.Val)

/-- The selector `[key*='val' i]`: the attribute value contains `val`, both lowercased.
(The library also rejects blank attribute values, which contain no non-blank `val`.) -/
def attributeSubstringSelector (L : Lib) (key val : Str) : Selector :=
  fun _ n => matchAttribute n key (fun s => Contains (L.ToLower s) (L.ToLower val))

/-- The selector group `a, b`. -/
def Selector.or (a b : Selector) : Selector :=
  fun anc n => a anc n || b anc n

/-- The descendant combinator `a *`: an element with an ancestor matching `a`. -/
def descendantOf (a : Selector) : Selector :=
  fun anc n => n.Kind == NodeType.ElementNode && anc.any (fun p => a [] p)

/-- The compound `a:not(b)`. -/
def Selector.andNot (a b : Selector) : Selector :=
  fun anc n => a anc n && !(b anc n)

/-- The value of the attribute `name`, or the empty string (`Selection.Attr`, found flag
dropped). -/
def Attr (n : Node) (name : Str) : Str :=
  match n.Attr.find? (fun a => a.Key == name) with
  | some a => a.Val
  | none => []

/-- The effect of `doc.Find(sel).Remove()`, and of `doc.Find(sel).Each(...)` with a callback
that removes the node when `sel` is taken to include the callback's test: every matching node
is unlinked from its parent together with its subtree. -/
def findRemove (sel : Selector) (anc : List Node) : Tree → Tree
  | .nil => .nil
  | .node n c s =>
    if sel anc n then findRemove sel anc s
    else .node n (findRemove sel (n :: anc) c) (findRemove sel anc s)

/-- Whether `doc.Find(sel)` is non-empty. -/
def findAny (sel : Selector) (anc : List Node) : Tree → Bool
  | .nil => false
  | .node n c s => sel anc n || findAny sel (n :: anc) c || findAny sel anc s

/-- The children of the first match in document order:
`doc.Find(sel).First()`, then its child sequence. -/
def findFirst (sel : Selector) (anc : List Node) : Tree → Option Tree
  | .nil => none
  | .node n c s =>
    if sel anc n then some c
    else match findFirst sel (n :: anc) c with
      | some r => some r
      | none => findFirst sel anc s

/-- The inner markup of a selection with the error dropped, as in `mainHTML, _ := main.Html()`:
on an error the text is empty. -/
def Html (L : Lib) (children : Tree) : Str :=
  match L.render children with
  | .ok s => s
  | .error _ => []

/-- The effect of `doc.Find(sel).SetHtml(h)`: the children of every match are replaced by the
parsed fragment. -/
def SetHtml (L : Lib) (sel : Selector) (h : Str) (anc : List Node) : Tree → Tree
  | .nil => .nil
  | .node n c s =>
    if sel anc n then .node n (L.parseFragment h) (SetHtml L sel h anc s)
    else .node n (SetHtml L sel h (n :: anc) c) (SetHtml L sel h anc s)

/-- The selector `main, article`. -/
def mainSelector : Selector :=
  (tagSelector "main".toList).or (tagSelector "article".toList)

/-- Main-content isolation (cleaner.go 23-32). -/
def isolateMain (L : Lib) (preserveMainOnly : Bool) (doc : Tree) : Tree :=
  if preserveMainOnly then
    match findFirst mainSelector [] doc with
    | some main => SetHtml L (tagSelector "body".toList) (Html L main) [] doc
    | none => doc
  else doc

/-- The selector `[class*='val' i], [id*='val' i]`. -/
def classOrId (L : Lib) (val : Str) : Selector :=
  (attributeSubstringSelector L "class".toList val).or
    (attributeSubstringSelector L "id".toList val)

/-- The fragments of cleaner.go 45-55. -/
def adPatterns : List Str :=
  ["advertisement".toList, "adsbygoogle".toList, "ad-".toList, "-ad-".toList, "-ad".toList,
   "_ad_".toList, "_ad".toList, "ad_".toList, " ad ".toList]

/-- The callback test of the ad pass (cleaner.go 40-62): some fragment occurs in the
lowercased `class + " " + id`. -/
def adCallback (L : Lib) (n : Node) : Bool :=
  let combined := L.ToLower (Attr n "class".toList ++ " ".toList ++ Attr n "id".toList)
  adPatterns.any (fun pattern => Contains combined pattern)

/-- The nodes the ad pass removes (cleaner.go 38-63). -/
def adRule (L : Lib) : Selector :=
  fun anc n => classOrId L "ad".toList anc n && adCallback L n

/-- The nodes the banner pass removes (cleaner.go 67-73). -/
def bannerRule (L : Lib) : Selector :=
  fun anc n => classOrId L "banner".toList anc n &&
    !(Contains (L.ToLower (Attr n "class".toList)) "header".toList)

/-- The selector `[class*='menu' i]:not(main *, article *)` (cleaner.go 81). -/
def menuRule (L : Lib) : Selector :=
  (attributeSubstringSelector L "class".toList "menu".toList).andNot
    ((descendantOf (tagSelector "main".toList)).or (descendantOf (tagSelector "article".toList)))

/-- The selector `head, script, style, nav`. -/
def noiseSelector : Selector :=
  (((tagSelector "head".toList).or (tagSelector "script".toList)).or
    (tagSelector "style".toList)).or (tagSelector "nav".toList)

/-- The selector `footer, aside`. -/
def clutterSelector : Selector :=
  (tagSelector "footer".toList).or (tagSelector "aside".toList)

/-- Passes 1 to 5 of `CleanHTML` (cleaner.go 34-92), in source order. -/
def removalPasses (L : Lib) (removeImages : Bool) (doc : Tree) : Tree :=
  let doc := findRemove noiseSelector [] doc
  let doc := findRemove (adRule L) [] doc
  let doc := findRemove (classOrId L "advertisement".toList) [] doc
  let doc := findRemove (bannerRule L) [] doc
  let doc := findRemove (tagSelector "iframe".toList) [] doc
  let doc := findRemove clutterSelector [] doc
  let doc := findRemove (classOrId L "sidebar".toList) [] doc
  let doc := findRemove (menuRule L) [] doc
  let doc := findRemove (classOrId L "popup".toList) [] doc
  let doc := findRemove (classOrId L "modal".toList) [] doc
  let doc := findRemove (classOrId L "cookie".toList) [] doc
  let doc := findRemove (classOrId L "social".toList) [] doc
  let doc := findRemove (classOrId L "share".toList) [] doc
  let doc := findRemove (classOrId L "comment".toList) [] doc
  if removeImages then findRemove (tagSelector "img".toList) [] doc else doc

/-- The tree handed to the attribute pass: isolation followed by the removal passes. -/
def prunedTree (L : Lib) (preserveMainOnly removeImages : Bool) (doc : Tree) : Tree :=
  removalPasses L removeImages (isolateMain L preserveMainOnly doc)

/-- The allow-list of cleaner.go 103-108, as the lookup `semanticAttrs[attr]`. -/
def semanticAttrs (attr : Str) : Bool :=
  attr == "href".toList || attr == "src".toList || attr == "alt".toList ||
    attr == "title".toList

/-- The goquery helper behind `RemoveAttr`: the first attribute named `attrName` is overwritten
by the last attribute and the slice is shortened by one. -/
def removeAttr (attrName : Str) : List Attribute → List Attribute
  | [] => []
  | a :: rest =>
    if a.Key == attrName then
      match rest.getLast? with
      | some l => l :: rest.dropLast
      | none => []
    else a :: removeAttr attrName rest

/-- The callback of pass 6 on one element (cleaner.go 96-114): the keys are collected first,
then every key outside the allow-list is removed once per occurrence. -/
def stripNode (n : Node) : Node :=
  let attrs := n.Attr.map (fun attr => attr.Key)
  let kept := attrs.foldl
    (fun cur attr => if !semanticAttrs attr then removeAttr attr cur else cur) n.Attr
  { n with Attr := kept }

/-- Pass 6, `doc.Find("*").Each(...)` (cleaner.go 95-115). -/
def stripAttributes : Tree → Tree
  | .nil => .nil
  | .node n c s =>
    .node (if universalSelector [] n then stripNode n else n)
      (stripAttributes c) (stripAttributes s)

/-- The tree `CleanHTML` serialises: isolation, the removal passes, the attribute pass. -/
def cleanTree (L : Lib) (preserveMainOnly removeImages : Bool) (doc : Tree) : Tree :=
  stripAttributes (prunedTree L preserveMainOnly removeImages doc)

/-- A Go `(string, error)` result: the string and the error text, if any. -/
abbrev Result := Str × Option Str

/-- The function `CleanHTML` of cleaner.go. -/
def CleanHTML (L : Lib) (html : Str) (preserveMainOnly removeImages : Bool) : Result :=
  if html = [] then
    ([], some "HTML content cannot be empty".toList)
  else
    match L.parse html with
    | .error err => ([], some ("failed to parse HTML: ".toList ++ err))
    | .ok doc =>
      match L.render (cleanTree L preserveMainOnly removeImages doc) with
      | .error err => ([], some ("failed to generate cleaned HTML: ".toList ++ err))
      | .ok cleanedHTML => (cleanedHTML, none)

/-- The function `ConvertToMarkdown` of converter.go. -/
def ConvertToMarkdown (L : Lib) (html : Str) : Result :=
  if html = [] then
    ([], some "HTML content cannot be empty".toList)
  else
    match L.ConvertString html with
    | .error err => ([], some ("failed to convert HTML to Markdown: ".toList ++ err))
    | .ok markdown => (markdown, none)

/-- The function `ConvertToFormat` of converter.go. -/
def ConvertToFormat (L : Lib) (html format : Str) : Result :=
  if html = [] then
    ([], some "HTML content cannot be empty".toList)
  else if format = "html".toList then
    (html, none)
  else if format = "markdown".toList then
    ConvertToMarkdown L html
  else
    ([], some ("unsupported format: ".toList ++ format ++
      " (use 'html' or 'markdown')".toList))

/-! Vocabulary of the statements -/

/-- Whether every node of the tree passes `p`. -/
def Tree.all (p : Node → Bool) : Tree → Bool
  | .nil => true
  | .node n c s => p n && Tree.all p c && Tree.all p s

/-- The union of the selectors of passes 1 to 5, in source order. -/
def removedSelector (L : Lib) (removeImages : Bool) : Selector :=
  fun anc n =>
    noiseSelector anc n || adRule L anc n || classOrId L "advertisement".toList anc n ||
    bannerRule L anc n || tagSelector "iframe".toList anc n || clutterSelector anc n ||
    classOrId L "sidebar".toList anc n || menuRule L anc n ||
    classOrId L "popup".toList anc n || classOrId L "modal".toList anc n ||
    classOrId L "cookie".toList anc n || classOrId L "social".toList anc n ||
    classOrId L "share".toList anc n || classOrId L "comment".toList anc n ||
    (removeImages && tagSelector "img".toList anc n)

/-- The union of the selectors of passes 1 to 5 without the menu rule. -/
def otherSelector (L : Lib) (removeImages : Bool) : Selector :=
  fun anc n =>
    noiseSelector anc n || adRule L anc n || classOrId L "advertisement".toList anc n ||
    bannerRule L anc n || tagSelector "iframe".toList anc n || clutterSelector anc n ||
    classOrId L "sidebar".toList anc n ||
    classOrId L "popup".toList anc n || classOrId L "modal".toList anc n ||
    classOrId L "cookie".toList anc n || classOrId L "social".toList anc n ||
    classOrId L "share".toList anc n || classOrId L "comment".toList anc n ||
    (removeImages && tagSelector "img".toList anc n)

/-- Whether a node is not an element or carries allow-listed attribute names only. -/
def semanticOnly (n : Node) : Bool :=
  n.Kind != NodeType.ElementNode || n.Attr.all (fun a => semanticAttrs a.Key)

/-- A test on nodes that looks at kind and tag only. -/
def TagOnly (p : Node → Bool) : Prop :=
  ∀ n m : Node, n.Kind = m.Kind → n.Data = m.Data → p n = p m

/-- Whether a node is not an element with one of the removed tags (with `img` among them
when images are removed). -/
def noiseFree (removeImages : Bool) (n : Node) : Bool :=
  !(n.Kind == NodeType.ElementNode &&
    (["head".toList, "script".toList, "style".toList, "nav".toList, "iframe".toList,
      "footer".toList, "aside".toList].contains n.Data ||
     (removeImages && n.Data == "img".toList)))

/-- The number of attributes named `k`. -/
def keyCount (k : Str) (l : List Attribute) : Nat :=
  l.countP (fun a => a.Key == k)

/-- Text of ASCII characters only. -/
def asciiStr (s : Str) : Bool :=
  s.all (fun c => decide (c.toNat < 128))

/-- A node whose attribute values are ASCII text. -/
def asciiNode (n : Node) : Bool :=
  n.Attr.all (fun a => asciiStr a.Val)

/-- An element node. -/
def element (tag : String) (attrs : List Attribute) : Node :=
  ⟨NodeType.ElementNode, tag.toList, attrs⟩

/-- A text node. -/
def text (data : String) : Node :=
  ⟨NodeType.TextNode, data.toList, []⟩

/-- An attribute without namespace. -/
def keyVal (key val : String) : Attribute :=
  ⟨[], key.toList, val.toList⟩

/-- A node without children, followed by `next`. -/
def leaf (n : Node) (next : Tree) : Tree :=
  .node n .nil next

/-- The shape the parser gives a document without doctype: `html` holding `head` and `body`. -/
def page (head body : Tree) : Tree :=
  .node (element "html" [])
    (.node (element "head" []) head (.node (element "body" []) body .nil)) .nil

/-- A cleaned page: `html` holding `body` only. -/
def cleanedPage (body : Tree) : Tree :=
  .node (element "html" []) (.node (element "body" []) body .nil) .nil

/-! A sample library

`sampleLib` supplies concrete library functions for closed evaluations: ASCII case folding, a
serialiser for trees without void elements and without characters that need escaping, and the
parser's results on the few inputs used below (the HTML tree construction always supplies
`html`, `head` and `body`). -/

/-- The attributes of a start tag as `html.Render` writes them. -/
def renderAttrs : List Attribute → Str
  | [] => []
  | a :: rest =>
    [' '] ++ a.Key ++ ['=', Char.ofNat 34] ++ a.Val ++ [Char.ofNat 34] ++ renderAttrs rest

/-- The serialiser `html.Render` over a sibling sequence, for trees without void or raw-text
elements and without characters that need escaping. -/
def sampleRender : Tree → Str
  | .nil => []
  | .node n c s =>
    (match n.Kind with
      | .ElementNode =>
        "<".toList ++ n.Data ++ renderAttrs n.Attr ++ ">".toList ++ sampleRender c ++
          "</".toList ++ n.Data ++ ">".toList
      | .TextNode => n.Data
      | .CommentNode => "<!--".toList ++ n.Data ++ "-->".toList
      | .DoctypeNode => "<!DOCTYPE ".toList ++ n.Data ++ ">".toList) ++ sampleRender s

/-- The tree of `<html class=ad-x></html>`. -/
def adHtmlDoc : Tree :=
  .node (element "html" [keyVal "class" "ad-x"])
    (leaf (element "head" []) (leaf (element "body" []) .nil)) .nil

/-- The tree of `<body class=ad-x>hi</body>`. -/
def adBodyDoc : Tree :=
  .node (element "html" [])
    (leaf (element "head" [])
      (.node (element "body" [keyVal "class" "ad-x"]) (leaf (text "hi") .nil) .nil)) .nil

/-- The parser on the inputs of the examples. -/
def sampleParse (s : Str) : Except Str Tree :=
  if s = "<html class=ad-x></html>".toList then .ok adHtmlDoc
  else if s = "<body class=ad-x>hi</body>".toList then .ok adBodyDoc
  else if s = "<html></html>".toList then .ok (page .nil .nil)
  else if s = "<html><body></body></html>".toList then .ok (page .nil .nil)
  else .error "input outside the sample table".toList

/-- An in-content menu block, `<div class="menu">x</div>`. -/
def menuBlock : Tree :=
  .node (element "div" [keyVal "class" "menu"]) (leaf (text "x") .nil) .nil

/-- The fragment parser on the inputs of the examples. -/
def sampleParseFragment (s : Str) : Tree :=
  if s = "KEEP".toList then leaf (text "KEEP") .nil
  else if s = sampleRender menuBlock then menuBlock
  else .nil

/-- The sample library. -/
def sampleLib : Lib where
  ToLower := fun s => s.map Char.toLower
  ToLower_ascii := fun _ _ => rfl
  parse := sampleParse
  render := fun t => .ok (sampleRender t)
  parseFragment := sampleParseFragment
  ConvertString := fun s => .ok s

/-! Example documents -/

/-- The body of `<div class="header-banner">Site</div><div class="ad-banner">Buy</div>`. -/
def bannerDoc : Tree :=
  page .nil
    (.node (element "div" [keyVal "class" "header-banner"]) (leaf (text "Site") .nil)
      (.node (element "div" [keyVal "class" "ad-banner"]) (leaf (text "Buy") .nil) .nil))

/-- The body of
`<article><div class="menu">Contents</div></article><div class="menu">Nav</div>`. -/
def menuDoc : Tree :=
  page .nil
    (.node (element "article" [])
      (.node (element "div" [keyVal "class" "menu"]) (leaf (text "Contents") .nil) .nil)
      (.node (element "div" [keyVal "class" "menu"]) (leaf (text "Nav") .nil) .nil))

/-- A body of four blocks with the classes `header`, `thread`, `already` and `read`. -/
def adWordsDoc : Tree :=
  page .nil
    (leaf (element "div" [keyVal "class" "header"])
      (leaf (element "div" [keyVal "class" "thread"])
        (leaf (element "div" [keyVal "class" "already"])
          (leaf (element "div" [keyVal "class" "read"]) .nil))))

/-- The body `<nav>a</nav><article>KEEP</article><footer>b</footer>`. -/
def keepDoc (a b : Str) : Tree :=
  page .nil
    (.node (element "nav" []) (leaf ⟨NodeType.TextNode, a, []⟩ .nil)
      (.node (element "article" []) (leaf (text "KEEP") .nil)
        (.node (element "footer" []) (leaf ⟨NodeType.TextNode, b, []⟩ .nil) .nil)))

/-- The body `<article><div class="sidebar-menu">x</div></article>`. -/
def sidebarMenuDoc : Tree :=
  page .nil
    (.node (element "article" [])
      (.node (element "div" [keyVal "class" "sidebar-menu"]) (leaf (text "x") .nil) .nil) .nil)

/-- The body `<div class="sidebar"><article>KEEP</article></div>`. -/
def sidebarArticleDoc : Tree :=
  page .nil
    (.node (element "div" [keyVal "class" "sidebar"])
      (.node (element "article" []) (leaf (text "KEEP") .nil) .nil) .nil)

/-- The body `<article><div class="menu">x</div></article>`. -/
def menuInArticleDoc : Tree :=
  page .nil (.node (element "article" []) menuBlock .nil)

/-! Lemmas on the passes -/

theorem findRemove_findRemove (p q : Selector) (t : Tree) :
    ∀ anc, findRemove q anc (findRemove p anc t) = findRemove (p.or q) anc t := by
  induction t with
  | nil => intro anc; rfl
  | node n c s ihc ihs =>
    intro anc
    by_cases hp : p anc n = true
    · simp [findRemove, Selector.or, hp, ihs]
    · by_cases hq : q anc n = true
      · simp [findRemove, Selector.or, hp, hq, ihs]
      · simp [findRemove, Selector.or, hp, hq, ihs, ihc]

theorem findRemove_congr (p q : Selector) (h : ∀ anc n, p anc n = q anc n) (t : Tree) :
    ∀ anc, findRemove p anc t = findRemove q anc t := by
  have : p = q := by funext anc n; exact h anc n
  intro anc; rw [this]

theorem removalPasses_eq (L : Lib) (r : Bool) (t : Tree) :
    removalPasses L r t = findRemove (removedSelector L r) [] t := by
  cases r
  · simp only [removalPasses, findRemove_findRemove, Bool.false_eq_true, if_false]
    apply findRemove_congr
    intro anc n
    simp [removedSelector, Selector.or]
  · simp only [removalPasses, findRemove_findRemove, if_true]
    apply findRemove_congr
    intro anc n
    simp [removedSelector, Selector.or]

theorem findAny_findRemove (sel sel2 : Selector)
    (h : ∀ anc n, sel anc n = true → sel2 anc n = true) (t : Tree) :
    ∀ anc, findAny sel anc (findRemove sel2 anc t) = false := by
  induction t with
  | nil => intro anc; rfl
  | node n c s ihc ihs =>
    intro anc
    by_cases h2 : sel2 anc n = true
    · simp [findRemove, h2, ihs]
    · have h1 : sel anc n = false := by
        cases hs : sel anc n
        · rfl
        · exact absurd (h anc n hs) h2
      simp [findRemove, h2, findAny, h1, ihs, ihc]

theorem findRemove_eq_self (sel : Selector) (t : Tree) :
    ∀ anc, findAny sel anc t = false → findRemove sel anc t = t := by
  induction t with
  | nil => intro anc _; rfl
  | node n c s ihc ihs =>
    intro anc h
    simp only [findAny, Bool.or_eq_false_iff] at h
    simp [findRemove, h.1.1, ihc _ h.1.2, ihs _ h.2]

theorem all_of_findRemove (p : Node → Bool) (sel : Selector)
    (h : ∀ anc n, sel anc n = false → p n = true) (t : Tree) :
    ∀ anc, (findRemove sel anc t).all p = true := by
  induction t with
  | nil => intro anc; rfl
  | node n c s ihc ihs =>
    intro anc
    by_cases hs : sel anc n = true
    · simp [findRemove, hs, ihs]
    · simp [findRemove, hs, Tree.all, h anc n (by simpa using hs), ihc, ihs]

theorem findAny_eq_false_of_all (p : Node → Bool) (sel : Selector)
    (h : ∀ anc n, p n = true → sel anc n = false) (t : Tree) :
    ∀ anc, t.all p = true → findAny sel anc t = false := by
  induction t with
  | nil => intro anc _; rfl
  | node n c s ihc ihs =>
    intro anc ht
    simp only [Tree.all, Bool.and_eq_true] at ht
    simp [findAny, h anc n ht.1.1, ihc _ ht.1.2, ihs _ ht.2]


theorem keyCount_cons (k : Str) (a : Attribute) (l : List Attribute) :
    keyCount k (a :: l) = keyCount k l + (if a.Key = k then 1 else 0) := by
  unfold keyCount
  rw [List.countP_cons]
  simp

theorem keyCount_swapLast (k : Str) (rest : List Attribute) (l : Attribute)
    (h : rest.getLast? = some l) : keyCount k (l :: rest.dropLast) = keyCount k rest := by
  have hr : rest.dropLast ++ [l] = rest := List.dropLast_append_getLast? l (by simp [h])
  have hp : List.Perm (l :: rest.dropLast) rest := by
    have h1 : List.Perm (l :: rest.dropLast) (rest.dropLast ++ [l]) :=
      (List.perm_append_singleton l rest.dropLast).symm
    rw [hr] at h1
    exact h1
  exact hp.countP_eq _

theorem keyCount_removeAttr (k k0 : Str) (l : List Attribute) :
    keyCount k (removeAttr k0 l) = keyCount k l - (if k0 = k then 1 else 0) := by
  induction l with
  | nil => simp [removeAttr, keyCount]
  | cons a rest ih =>
    by_cases ha : a.Key = k0
    · subst ha
      have hstep : keyCount k (removeAttr a.Key (a :: rest)) = keyCount k rest := by
        cases hl : rest.getLast? with
        | none =>
          have : rest = [] := by simpa using hl
          subst this
          simp [removeAttr]
        | some l =>
          simp only [removeAttr, beq_self_eq_true, if_true, hl]
          exact keyCount_swapLast k rest l hl
      rw [hstep, keyCount_cons]
      split <;> omega
    · have hne : (a.Key == k0) = false := by simpa using ha
      simp only [removeAttr, hne, Bool.false_eq_true, if_false, keyCount_cons, ih]
      by_cases hk : k0 = k
      · subst hk
        simp [ha]
      · simp [hk]

theorem keyCount_eq_count (k : Str) (l : List Attribute) :
    keyCount k l = (l.map (fun attr => attr.Key)).count k := by
  induction l with
  | nil => rfl
  | cons a rest ih =>
    rw [keyCount_cons, ih, List.map_cons, List.count_cons]
    simp

theorem foldl_strip_semantic (ks : List Str) :
    ∀ cur : List Attribute,
      (∀ k, semanticAttrs k = false → keyCount k cur ≤ ks.count k) →
      ∀ a ∈ ks.foldl
        (fun cur attr => if !semanticAttrs attr then removeAttr attr cur else cur) cur,
        semanticAttrs a.Key = true := by
  induction ks with
  | nil =>
    intro cur h a ha
    cases hs : semanticAttrs a.Key
    · have h0 := h a.Key hs
      have hpos : 0 < keyCount a.Key cur := by
        unfold keyCount
        exact List.countP_pos_iff.mpr ⟨a, ha, by simp⟩
      simp at h0
      omega
    · rfl
  | cons k0 ks ih =>
    intro cur h
    rw [List.foldl_cons]
    apply ih
    intro k hk
    have hk0 := h k hk
    rw [List.count_cons] at hk0
    cases hs : semanticAttrs k0
    · simp only [Bool.not_false, if_true, keyCount_removeAttr]
      by_cases e : k0 = k
      · subst e; simp at hk0 ⊢; omega
      · simp [e] at hk0 ⊢; exact hk0
    · have e : k0 ≠ k := by
        intro e; subst e; rw [hs] at hk; cases hk
      simp [e] at hk0 ⊢
      exact hk0

theorem stripNode_semantic (n : Node) :
    ∀ a ∈ (stripNode n).Attr, semanticAttrs a.Key = true := by
  unfold stripNode
  apply foldl_strip_semantic
  intro k _
  rw [keyCount_eq_count]

/-! Lemmas on the attribute pass -/

theorem stripAttributes_semantic (t : Tree) :
    (stripAttributes t).all semanticOnly = true := by
  induction t with
  | nil => rfl
  | node n c s ihc ihs =>
    simp only [stripAttributes, Tree.all, ihc, ihs, Bool.and_true]
    by_cases hk : n.Kind = NodeType.ElementNode
    · have hs := stripNode_semantic n
      have hkind : (stripNode n).Kind = n.Kind := rfl
      simp only [universalSelector, hk, beq_self_eq_true, if_true, semanticOnly]
      rw [hkind, hk]
      simp only [bne_self_eq_false, Bool.false_or, List.all_eq_true]
      exact hs
    · simp [universalSelector, semanticOnly, hk]

theorem foldl_strip_id (ks : List Str) (cur : List Attribute)
    (h : ∀ k ∈ ks, semanticAttrs k = true) :
    ks.foldl (fun cur attr => if !semanticAttrs attr then removeAttr attr cur else cur) cur
      = cur := by
  induction ks generalizing cur with
  | nil => rfl
  | cons k ks ih =>
    rw [List.foldl_cons]
    have hk : semanticAttrs k = true := h k (by simp)
    simp only [hk, Bool.not_true, Bool.false_eq_true, if_false]
    exact ih cur (fun k2 hk2 => h k2 (by simp [hk2]))

theorem stripNode_eq_self (n : Node) (h : n.Attr.all (fun a => semanticAttrs a.Key) = true) :
    stripNode n = n := by
  unfold stripNode
  have hfold := foldl_strip_id (n.Attr.map (fun attr => attr.Key)) n.Attr (by
    intro k hk
    rw [List.mem_map] at hk
    obtain ⟨a, ha, rfl⟩ := hk
    exact (List.all_eq_true.mp h) a ha)
  simp only [hfold]

theorem stripAttributes_eq_self (t : Tree) (h : t.all semanticOnly = true) :
    stripAttributes t = t := by
  induction t with
  | nil => rfl
  | node n c s ihc ihs =>
    simp only [Tree.all, Bool.and_eq_true] at h
    simp only [stripAttributes, ihc h.1.2, ihs h.2]
    by_cases hk : n.Kind = NodeType.ElementNode
    · have hn : n.Attr.all (fun a => semanticAttrs a.Key) = true := by
        have := h.1.1
        simpa [semanticOnly, hk] using this
      simp [universalSelector, hk, stripNode_eq_self n hn]
    · simp [universalSelector, hk]

theorem all_stripAttributes (p : Node → Bool) (hp : TagOnly p) (t : Tree) :
    (stripAttributes t).all p = t.all p := by
  induction t with
  | nil => rfl
  | node n c s ihc ihs =>
    simp only [stripAttributes, Tree.all, ihc, ihs]
    have : p (if universalSelector [] n then stripNode n else n) = p n := by
      split
      · exact hp _ _ rfl rfl
      · rfl
    rw [this]

/-! Lemmas on the whole pipeline -/

theorem tagSelector_eq (tag : Str) (anc : List Node) (n : Node) :
    tagSelector tag anc n = (n.Kind == NodeType.ElementNode && n.Data == tag) := rfl

theorem noiseFree_eq (r : Bool) (n : Node) :
    noiseFree r n = !(n.Kind == NodeType.ElementNode &&
      ((n.Data == "head".toList || n.Data == "script".toList || n.Data == "style".toList ||
        n.Data == "nav".toList || n.Data == "iframe".toList || n.Data == "footer".toList ||
        n.Data == "aside".toList) || (r && n.Data == "img".toList))) := by
  simp only [noiseFree, List.contains_cons, List.contains_nil, Bool.or_false, Bool.or_assoc]

theorem noiseFree_of_not_removed (L : Lib) (r : Bool) (anc : List Node) (n : Node)
    (h : removedSelector L r anc n = false) : noiseFree r n = true := by
  simp only [removedSelector, Bool.or_eq_false_iff] at h
  obtain ⟨⟨⟨⟨⟨⟨⟨⟨⟨⟨⟨⟨⟨⟨hnoise, -⟩, -⟩, -⟩, hiframe⟩, hclutter⟩, -⟩, -⟩, -⟩, -⟩, -⟩, -⟩, -⟩, -⟩,
    himg⟩ := h
  simp only [noiseSelector, clutterSelector, Selector.or, Bool.or_eq_false_iff,
    tagSelector_eq] at hnoise hclutter hiframe himg
  obtain ⟨⟨⟨hhead, hscript⟩, hstyle⟩, hnav⟩ := hnoise
  obtain ⟨hfooter, haside⟩ := hclutter
  rw [noiseFree_eq]
  cases hk : (n.Kind == NodeType.ElementNode)
  · rfl
  · rw [hk] at hhead hscript hstyle hnav hfooter haside hiframe himg
    simp only [Bool.true_and] at hhead hscript hstyle hnav hfooter haside hiframe himg
    rw [hhead, hscript, hstyle, hnav, hfooter, haside, hiframe, himg]
    rfl

theorem prunedTree_noiseFree (L : Lib) (p r : Bool) (doc : Tree) :
    (prunedTree L p r doc).all (noiseFree r) = true := by
  unfold prunedTree
  rw [removalPasses_eq]
  exact all_of_findRemove _ _ (fun anc n h => noiseFree_of_not_removed L r anc n h) _ _

theorem noiseFree_tagOnly (r : Bool) : TagOnly (noiseFree r) := by
  intro n m hk hd
  simp [noiseFree, hk, hd]

theorem cleanTree_noiseFree (L : Lib) (p r : Bool) (doc : Tree) :
    (cleanTree L p r doc).all (noiseFree r) = true := by
  unfold cleanTree
  rw [all_stripAttributes _ (noiseFree_tagOnly r)]
  exact prunedTree_noiseFree L p r doc

theorem matchAttribute_semantic (n : Node) (key : Str) (f : Str → Bool)
    (hn : semanticOnly n = true) (hkey : semanticAttrs key = false) :
    matchAttribute n key f = false := by
  unfold matchAttribute
  by_cases hk : n.Kind = NodeType.ElementNode
  · have hall : n.Attr.all (fun a => semanticAttrs a.Key) = true := by
      simpa [semanticOnly, hk] using hn
    have hany : n.Attr.any (fun a => a.Key == key && f a.Val) = false := by
      rw [List.any_eq_false]
      intro a ha
      have hsem := (List.all_eq_true.mp hall) a ha
      have hne : (a.Key == key) = false := by
        cases hb : (a.Key == key)
        · rfl
        · have : a.Key = key := by simpa using hb
          rw [this, hkey] at hsem
          cases hsem
      simp [hne]
    simp [hany]
  · simp [hk]

theorem classOrId_semantic (L : Lib) (val : Str) (anc : List Node) (n : Node)
    (hn : semanticOnly n = true) : classOrId L val anc n = false := by
  simp only [classOrId, Selector.or, attributeSubstringSelector,
    matchAttribute_semantic n "class".toList _ hn (by decide),
    matchAttribute_semantic n "id".toList _ hn (by decide), Bool.or_false]

theorem removedSelector_clean (L : Lib) (anc : List Node) (n : Node)
    (hn : (semanticOnly n && noiseFree false n) = true) :
    removedSelector L false anc n = false := by
  simp only [Bool.and_eq_true] at hn
  obtain ⟨hs, hf⟩ := hn
  have hc := fun val => classOrId_semantic L val anc n hs
  have hm : attributeSubstringSelector L "class".toList "menu".toList anc n = false := by
    simp only [attributeSubstringSelector,
      matchAttribute_semantic n "class".toList _ hs (by decide)]
  simp only [removedSelector, adRule, bannerRule, menuRule, Selector.andNot, hc, hm,
    Bool.false_and, Bool.or_false, Bool.false_or]
  rw [noiseFree_eq] at hf
  simp only [noiseSelector, clutterSelector, Selector.or, tagSelector_eq]
  cases hk : (n.Kind == NodeType.ElementNode)
  · rfl
  · rw [hk] at hf
    simp only [Bool.true_and, Bool.false_and, Bool.or_false, Bool.not_eq_true',
      Bool.or_eq_false_iff] at hf
    obtain ⟨⟨⟨⟨⟨⟨hhead, hscript⟩, hstyle⟩, hnav⟩, hiframe⟩, hfooter⟩, haside⟩ := hf
    rw [hhead, hscript, hstyle, hnav, hiframe, hfooter, haside]
    rfl

theorem all_and (p q : Node → Bool) (t : Tree) :
    t.all (fun n => p n && q n) = (t.all p && t.all q) := by
  induction t with
  | nil => rfl
  | node n c s ihc ihs =>
    simp only [Tree.all, ihc, ihs]
    cases p n <;> cases q n <;> cases Tree.all p c <;> cases Tree.all q c <;>
      cases Tree.all p s <;> cases Tree.all q s <;> rfl

theorem removalPasses_clean (L : Lib) (t : Tree)
    (hs : t.all semanticOnly = true) (hf : t.all (noiseFree false) = true) :
    removalPasses L false t = t := by
  rw [removalPasses_eq]
  apply findRemove_eq_self
  apply findAny_eq_false_of_all (fun n => semanticOnly n && noiseFree false n)
  · intro anc n hn
    exact removedSelector_clean L anc n hn
  · rw [all_and, hs, hf]; rfl

theorem cleanTree_fixed (L : Lib) (doc : Tree) :
    cleanTree L false false (cleanTree L false false doc) = cleanTree L false false doc := by
  have hs : (cleanTree L false false doc).all semanticOnly = true := by
    unfold cleanTree; exact stripAttributes_semantic _
  have hf := cleanTree_noiseFree L false false doc
  have h1 : prunedTree L false false (cleanTree L false false doc)
      = cleanTree L false false doc := by
    unfold prunedTree
    simp only [isolateMain, Bool.false_eq_true, if_false]
    exact removalPasses_clean L _ hs hf
  show stripAttributes (prunedTree L false false (cleanTree L false false doc)) = _
  rw [h1]
  exact stripAttributes_eq_self _ hs

/-! Every library agrees with ASCII case folding on ASCII documents -/

theorem ToLower_agree (L L2 : Lib) (s : Str) (h : asciiStr s = true) :
    L.ToLower s = L2.ToLower s := by
  have hs : ∀ c ∈ s, c.toNat < 128 := by
    intro c hc
    have := (List.all_eq_true.mp h) c hc
    simpa using this
  rw [L.ToLower_ascii s hs, L2.ToLower_ascii s hs]

theorem any_congr_mem {α : Type} (l : List α) (f g : α → Bool)
    (h : ∀ a ∈ l, f a = g a) : l.any f = l.any g := by
  induction l with
  | nil => rfl
  | cons a rest ih =>
    simp only [List.any_cons]
    rw [h a (by simp), ih (fun b hb => h b (by simp [hb]))]

theorem attributeSubstringSelector_agree (L L2 : Lib) (key val : Str) (anc : List Node)
    (n : Node) (hn : asciiNode n = true) (hv : asciiStr val = true) :
    attributeSubstringSelector L key val anc n
      = attributeSubstringSelector L2 key val anc n := by
  unfold attributeSubstringSelector matchAttribute
  congr 1
  apply any_congr_mem
  intro a ha
  have hval : asciiStr a.Val = true := (List.all_eq_true.mp hn) a ha
  show (a.Key == key && Contains (L.ToLower a.Val) (L.ToLower val)) =
    (a.Key == key && Contains (L2.ToLower a.Val) (L2.ToLower val))
  rw [ToLower_agree L L2 a.Val hval, ToLower_agree L L2 val hv]

theorem classOrId_agree (L L2 : Lib) (val : Str) (anc : List Node)
    (n : Node) (hn : asciiNode n = true) (hv : asciiStr val = true) :
    classOrId L val anc n = classOrId L2 val anc n := by
  unfold classOrId Selector.or
  rw [attributeSubstringSelector_agree L L2 _ val anc n hn hv,
    attributeSubstringSelector_agree L L2 _ val anc n hn hv]

theorem Attr_ascii (n : Node) (name : Str) (hn : asciiNode n = true) :
    asciiStr (Attr n name) = true := by
  unfold Attr
  cases hf : n.Attr.find? (fun a => a.Key == name) with
  | none => rfl
  | some a => exact (List.all_eq_true.mp hn) a (List.mem_of_find?_eq_some hf)

theorem asciiStr_append (s t : Str) (hs : asciiStr s = true) (ht : asciiStr t = true) :
    asciiStr (s ++ t) = true := by
  unfold asciiStr at *
  rw [List.all_append, hs, ht]
  rfl

theorem adCallback_agree (L L2 : Lib) (n : Node) (hn : asciiNode n = true) :
    adCallback L n = adCallback L2 n := by
  unfold adCallback
  have h : asciiStr (Attr n "class".toList ++ " ".toList ++ Attr n "id".toList) = true :=
    asciiStr_append _ _ (asciiStr_append _ _ (Attr_ascii n _ hn) (by decide))
      (Attr_ascii n _ hn)
  simp only [ToLower_agree L L2 _ h]

theorem removedSelector_agree (L L2 : Lib) (r : Bool) (anc : List Node) (n : Node)
    (hn : asciiNode n = true) :
    removedSelector L r anc n = removedSelector L2 r anc n := by
  have hc := fun (val : Str) (hv : asciiStr val = true) =>
    classOrId_agree L L2 val anc n hn hv
  have hm := attributeSubstringSelector_agree L L2 "class".toList "menu".toList anc n hn
    (by decide)
  have hb := ToLower_agree L L2 _ (Attr_ascii n "class".toList hn)
  unfold removedSelector adRule bannerRule menuRule Selector.andNot
  rw [hc _ (by decide), hc _ (by decide), hc _ (by decide), hc _ (by decide),
    hc _ (by decide), hc _ (by decide), hc _ (by decide), hc _ (by decide),
    hc _ (by decide), hc _ (by decide), adCallback_agree L L2 n hn, hm, hb]

theorem findRemove_agree (sel1 sel2 : Selector)
    (h : ∀ anc n, asciiNode n = true → sel1 anc n = sel2 anc n) (t : Tree) :
    ∀ anc, t.all asciiNode = true → findRemove sel1 anc t = findRemove sel2 anc t := by
  induction t with
  | nil => intro anc _; rfl
  | node n c s ihc ihs =>
    intro anc ht
    simp only [Tree.all, Bool.and_eq_true] at ht
    simp only [findRemove, h anc n ht.1.1, ihc _ ht.1.2, ihs _ ht.2]

theorem cleanTree_agree (L : Lib) (p r : Bool) (doc : Tree)
    (hmain : findFirst mainSelector [] doc = none) (hascii : doc.all asciiNode = true) :
    cleanTree L p r doc = cleanTree sampleLib false r doc := by
  have hiso : isolateMain L p doc = doc := by
    unfold isolateMain
    rw [hmain]
    cases p <;> rfl
  unfold cleanTree prunedTree
  rw [hiso]
  simp only [isolateMain, Bool.false_eq_true, if_false]
  rw [removalPasses_eq, removalPasses_eq]
  rw [findRemove_agree _ _ (fun anc n hn => removedSelector_agree L sampleLib r anc n hn)
    doc [] hascii]

/-! Lemmas on isolation -/

theorem findFirst_SetHtml (L : Lib) (sel : Selector) (h : Str) (t : Tree) :
    ∀ anc, findFirst sel anc (SetHtml L sel h anc t)
      = (findFirst sel anc t).map (fun _ => L.parseFragment h) := by
  induction t with
  | nil => intro anc; rfl
  | node n c s ihc ihs =>
    intro anc
    by_cases hs : sel anc n = true
    · simp [findFirst, SetHtml, hs]
    · simp only [findFirst, SetHtml, hs, if_false, Bool.false_eq_true, ihc]
      cases findFirst sel (n :: anc) c with
      | none => simp [ihs]
      | some r => simp

theorem removedSelector_plain (L : Lib) (r : Bool) (anc : List Node) (tag : Str) :
    removedSelector L r anc ⟨NodeType.ElementNode, tag, []⟩ =
      !(noiseFree r ⟨NodeType.ElementNode, tag, []⟩) := by
  rw [noiseFree_eq]
  simp only [removedSelector, noiseSelector, clutterSelector, adRule, bannerRule, menuRule,
    classOrId, Selector.or, Selector.andNot, attributeSubstringSelector, matchAttribute,
    tagSelector_eq, List.any_nil, Bool.and_false, Bool.false_and, Bool.or_false,
    beq_self_eq_true, Bool.true_and, Bool.not_not]
  cases (tag == "head".toList) <;> cases (tag == "script".toList) <;>
    cases (tag == "style".toList) <;> cases (tag == "nav".toList) <;>
    cases (tag == "iframe".toList) <;> cases (tag == "footer".toList) <;>
    cases (tag == "aside".toList) <;> cases r <;> cases (tag == "img".toList) <;> rfl

theorem removedSelector_html (L : Lib) (r : Bool) (anc : List Node) :
    removedSelector L r anc (element "html" []) = false := by
  rw [show element "html" [] = ⟨NodeType.ElementNode, "html".toList, []⟩ from rfl,
    removedSelector_plain]
  cases r <;> decide

theorem removedSelector_body (L : Lib) (r : Bool) (anc : List Node) :
    removedSelector L r anc (element "body" []) = false := by
  rw [show element "body" [] = ⟨NodeType.ElementNode, "body".toList, []⟩ from rfl,
    removedSelector_plain]
  cases r <;> decide

theorem removedSelector_head (L : Lib) (r : Bool) (anc : List Node) :
    removedSelector L r anc (element "head" []) = true := by
  rw [show element "head" [] = ⟨NodeType.ElementNode, "head".toList, []⟩ from rfl,
    removedSelector_plain]
  cases r <;> decide

/-- The cleaned form of a page: `head` goes, `body` keeps what the passes keep of its
content. -/
theorem cleanTree_page (L : Lib) (r : Bool) (hd B : Tree) :
    cleanTree L false r (page hd B) = cleanedPage (stripAttributes
      (findRemove (removedSelector L r) [element "body" [], element "html" []] B)) := by
  unfold cleanTree prunedTree
  simp only [isolateMain, Bool.false_eq_true, if_false]
  rw [removalPasses_eq]
  simp only [page, cleanedPage, findRemove, removedSelector_html, removedSelector_head,
    removedSelector_body, Bool.false_eq_true, if_false, if_true, stripAttributes]
  rfl

theorem isolateMain_page (L : Lib) (hd B main : Tree)
    (hfirst : findFirst mainSelector [] (page hd B) = some main) :
    isolateMain L true (page hd B) =
      page (SetHtml L (tagSelector "body".toList) (Html L main)
        [element "head" [], element "html" []] hd) (L.parseFragment (Html L main)) := by
  unfold isolateMain
  rw [hfirst]
  simp only [if_true, page, SetHtml]
  have h1 : tagSelector "body".toList [] (element "html" []) = false := by decide
  have h2 : tagSelector "body".toList [element "html" []] (element "head" []) = false := by
    decide
  have h3 : tagSelector "body".toList [element "html" []] (element "body" []) = true := by
    decide
  simp only [h1, h2, h3, Bool.false_eq_true, if_false, if_true]

theorem cleanTree_isolated_page (L : Lib) (r : Bool) (hd B main : Tree)
    (hfirst : findFirst mainSelector [] (page hd B) = some main) :
    cleanTree L true r (page hd B) = cleanedPage (stripAttributes
      (findRemove (removedSelector L r) [element "body" [], element "html" []]
        (L.parseFragment (Html L main)))) := by
  have h : cleanTree L true r (page hd B)
      = cleanTree L false r (isolateMain L true (page hd B)) := by
    simp only [cleanTree, prunedTree, isolateMain, Bool.false_eq_true, if_false]
  rw [h, isolateMain_page L hd B main hfirst, cleanTree_page]

/-! Lemmas on single rules -/

theorem all_mono (p q : Node → Bool) (h : ∀ n, p n = true → q n = true) (t : Tree) :
    t.all p = true → t.all q = true := by
  induction t with
  | nil => intro _; rfl
  | node n c s ihc ihs =>
    intro ht
    simp only [Tree.all, Bool.and_eq_true] at ht ⊢
    exact ⟨⟨h n ht.1.1, ihc ht.1.2⟩, ihs ht.2⟩

theorem semanticAttrs_eq (k : Str) :
    semanticAttrs k =
      ["href".toList, "src".toList, "alt".toList, "title".toList].contains k := by
  simp only [semanticAttrs, List.contains_cons, List.contains_nil, Bool.or_false,
    Bool.or_assoc]

theorem removedSelector_eq_other (L : Lib) (r : Bool) (anc : List Node) (n : Node) :
    removedSelector L r anc n = (otherSelector L r [] n || menuRule L anc n) := by
  unfold removedSelector otherSelector
  show _ = (noiseSelector anc n || adRule L anc n || classOrId L "advertisement".toList anc n ||
    bannerRule L anc n || tagSelector "iframe".toList anc n || clutterSelector anc n ||
    classOrId L "sidebar".toList anc n ||
    classOrId L "popup".toList anc n || classOrId L "modal".toList anc n ||
    classOrId L "cookie".toList anc n || classOrId L "social".toList anc n ||
    classOrId L "share".toList anc n || classOrId L "comment".toList anc n ||
    (r && tagSelector "img".toList anc n) || menuRule L anc n)
  ac_rfl

theorem otherSelector_anc (L : Lib) (r : Bool) (anc : List Node) (n : Node) :
    otherSelector L r anc n = otherSelector L r [] n := rfl

theorem keep_node (L : Lib) (r : Bool) (anc : List Node) (n : Node) (c s : Tree)
    (h : removedSelector L r anc n = false) :
    findRemove (removedSelector L r) anc (.node n c s) =
      .node n (findRemove (removedSelector L r) (n :: anc) c)
        (findRemove (removedSelector L r) anc s) := by
  simp [findRemove, h]

theorem drop_node (L : Lib) (r : Bool) (anc : List Node) (n : Node) (c s : Tree)
    (h : removedSelector L r anc n = true) :
    findRemove (removedSelector L r) anc (.node n c s) =
      findRemove (removedSelector L r) anc s := by
  simp [findRemove, h]

theorem any_main (anc : List Node) :
    (anc.any (fun p => tagSelector "main".toList [] p) ||
      anc.any (fun p => tagSelector "article".toList [] p)) =
    anc.any (fun a => mainSelector [] a) := by
  induction anc with
  | nil => rfl
  | cons a rest ih =>
    simp only [List.any_cons]
    rw [← ih]
    show _ = ((tagSelector "main".toList [] a || tagSelector "article".toList [] a) || _)
    ac_rfl

theorem menuRule_inside (L : Lib) (anc : List Node) (n : Node)
    (hanc : anc.any (fun a => mainSelector [] a) = true) : menuRule L anc n = false := by
  unfold menuRule Selector.andNot Selector.or descendantOf
  cases hk : (n.Kind == NodeType.ElementNode)
  · simp [attributeSubstringSelector, matchAttribute, hk]
  · have h : (anc.any (fun p => tagSelector "main".toList [] p) ||
        anc.any (fun p => tagSelector "article".toList [] p)) = true := by
      rw [any_main]
      exact hanc
    simp only [Bool.true_and, h, Bool.not_true, Bool.and_false]

theorem menuRule_outside (L : Lib) (anc : List Node) (n : Node)
    (hanc : anc.any (fun a => mainSelector [] a) = false)
    (hn : attributeSubstringSelector L "class".toList "menu".toList anc n = true) :
    menuRule L anc n = true := by
  unfold menuRule Selector.andNot Selector.or descendantOf
  have h : (anc.any (fun p => tagSelector "main".toList [] p) ||
      anc.any (fun p => tagSelector "article".toList [] p)) = false := by
    rw [any_main]
    exact hanc
  rw [hn]
  cases hk : (n.Kind == NodeType.ElementNode)
  · rfl
  · simp only [Bool.true_and, h, Bool.not_false]

theorem otherSelector_agree (L L2 : Lib) (r : Bool) (anc : List Node) (n : Node)
    (hn : asciiNode n = true) :
    otherSelector L r anc n = otherSelector L2 r anc n := by
  have hc := fun (val : Str) (hv : asciiStr val = true) =>
    classOrId_agree L L2 val anc n hn hv
  have hb := ToLower_agree L L2 _ (Attr_ascii n "class".toList hn)
  unfold otherSelector adRule bannerRule
  rw [hc _ (by decide), hc _ (by decide), hc _ (by decide), hc _ (by decide),
    hc _ (by decide), hc _ (by decide), hc _ (by decide), hc _ (by decide),
    hc _ (by decide), hc _ (by decide), adCallback_agree L L2 n hn, hb]

theorem cleanTree_agree_false (L : Lib) (r : Bool) (doc : Tree)
    (hascii : doc.all asciiNode = true) :
    cleanTree L false r doc = cleanTree sampleLib false r doc := by
  unfold cleanTree prunedTree
  simp only [isolateMain, Bool.false_eq_true, if_false]
  rw [removalPasses_eq, removalPasses_eq]
  rw [findRemove_agree _ _ (fun anc n hn => removedSelector_agree L sampleLib r anc n hn)
    doc [] hascii]

/-! Evaluating the rules on an element with ASCII attributes -/

theorem menuRule_eq (L : Lib) (anc : List Node) (n : Node) :
    menuRule L anc n = (attributeSubstringSelector L "class".toList "menu".toList [] n &&
      !(anc.any (fun a => mainSelector [] a))) := by
  unfold menuRule Selector.andNot Selector.or descendantOf
  rw [← any_main]
  cases hk : (n.Kind == NodeType.ElementNode)
  · simp only [attributeSubstringSelector, matchAttribute, hk, Bool.false_and]
  · simp only [Bool.true_and]
    rfl

theorem otherSelector_tag (L : Lib) (r : Bool) (anc : List Node) (tag : Str)
    (attrs : List Attribute) (htag : noiseFree r ⟨NodeType.ElementNode, tag, []⟩ = true) :
    otherSelector L r anc ⟨NodeType.ElementNode, tag, attrs⟩
      = otherSelector L false [] (element "div" attrs) := by
  rw [noiseFree_eq] at htag
  simp only [beq_self_eq_true, Bool.true_and, Bool.not_eq_true', Bool.or_eq_false_iff]
    at htag
  obtain ⟨⟨⟨⟨⟨⟨⟨hhead, hscript⟩, hstyle⟩, hnav⟩, hiframe⟩, hfooter⟩, haside⟩, himg⟩ := htag
  have e1 : adRule L anc ⟨NodeType.ElementNode, tag, attrs⟩
      = adRule L [] (element "div" attrs) := rfl
  have e2 : bannerRule L anc ⟨NodeType.ElementNode, tag, attrs⟩
      = bannerRule L [] (element "div" attrs) := rfl
  have e3 : ∀ val, classOrId L val anc ⟨NodeType.ElementNode, tag, attrs⟩
      = classOrId L val [] (element "div" attrs) := fun _ => rfl
  have t1 : ∀ (t : Str) (a : List Node), tagSelector t a ⟨NodeType.ElementNode, tag, attrs⟩
      = (tag == t) := fun _ _ => rfl
  have d1 : noiseSelector [] (element "div" attrs) = false :=
    (by decide : noiseSelector [] (element "div" []) = false)
  have d2 : clutterSelector [] (element "div" attrs) = false :=
    (by decide : clutterSelector [] (element "div" []) = false)
  have d3 : tagSelector "iframe".toList [] (element "div" attrs) = false :=
    (by decide : tagSelector "iframe".toList [] (element "div" []) = false)
  unfold otherSelector
  rw [e1, e2, e3, e3, e3, e3, e3, e3, e3, e3, d1, d2, d3]
  simp only [noiseSelector, clutterSelector, Selector.or, t1, hhead, hscript, hstyle, hnav,
    hiframe, hfooter, haside, himg, Bool.false_and, Bool.or_false, Bool.false_or]

theorem removedSelector_element (L : Lib) (r : Bool) (anc : List Node) (tag : Str)
    (attrs : List Attribute) (htag : noiseFree r ⟨NodeType.ElementNode, tag, []⟩ = true)
    (hattrs : asciiNode (element "div" attrs) = true) :
    removedSelector L r anc ⟨NodeType.ElementNode, tag, attrs⟩ =
      (otherSelector sampleLib false [] (element "div" attrs) ||
        (attributeSubstringSelector sampleLib "class".toList "menu".toList []
            (element "div" attrs) &&
          !(anc.any (fun a => mainSelector [] a)))) := by
  rw [removedSelector_eq_other, otherSelector_tag L r [] tag attrs htag, menuRule_eq,
    otherSelector_agree L sampleLib false [] _ hattrs]
  have e : attributeSubstringSelector L "class".toList "menu".toList []
      ⟨NodeType.ElementNode, tag, attrs⟩
      = attributeSubstringSelector L "class".toList "menu".toList [] (element "div" attrs) :=
    rfl
  rw [e, attributeSubstringSelector_agree L sampleLib _ _ [] _ hattrs (by decide)]

theorem removedSelector_text (L : Lib) (r : Bool) (anc : List Node) (data : Str) :
    removedSelector L r anc ⟨NodeType.TextNode, data, []⟩ = false := by
  simp only [removedSelector, noiseSelector, clutterSelector, adRule, bannerRule, menuRule,
    classOrId, Selector.or, Selector.andNot, attributeSubstringSelector, matchAttribute,
    tagSelector_eq, List.any_nil, Bool.and_false, Bool.false_and, Bool.or_false]
  have hk : (NodeType.TextNode == NodeType.ElementNode) = false := by decide
  simp only [hk, Bool.false_and, Bool.or_false, Bool.and_false]

theorem CleanHTML_semantic_core (L : Lib) (html : Str) (p r : Bool) (out : Str)
    (h : CleanHTML L html p r = (out, none)) :
    html ≠ [] ∧ ∃ doc, L.parse html = .ok doc ∧ L.render (cleanTree L p r doc) = .ok out ∧
      (cleanTree L p r doc).all (fun n => n.Kind != NodeType.ElementNode ||
        n.Attr.all (fun a =>
          ["href".toList, "src".toList, "alt".toList, "title".toList].contains a.Key))
        = true := by
  unfold CleanHTML at h
  by_cases he : html = []
  · simp [he] at h
  · refine ⟨he, ?_⟩
    simp only [he, if_false] at h
    cases hp : L.parse html with
    | error e => simp [hp] at h
    | ok doc =>
      simp only [hp] at h
      cases hr : L.render (cleanTree L p r doc) with
      | error e => simp [hr] at h
      | ok s =>
        simp only [hr, Prod.mk.injEq, and_true] at h
        refine ⟨doc, rfl, by rw [hr, h], ?_⟩
        have hs : (cleanTree L p r doc).all semanticOnly = true := by
          unfold cleanTree; exact stripAttributes_semantic _
        refine all_mono _ _ ?_ _ hs
        intro n hn
        simp only [semanticOnly, semanticAttrs_eq] at hn
        exact hn

/-! The claims -/

/-- C1: whenever `CleanHTML` succeeds, for any flags, the input was non-empty and every
element of the tree it serialised (html and body included) carries only attributes named
href, src, alt or title. -/
theorem CleanHTML_only_semantic_attributes (L : Lib) (html : Str) (p r : Bool) (out : Str)
    (h : CleanHTML L html p r = (out, none)) :
    html ≠ [] ∧ ∃ doc, L.parse html = .ok doc ∧ L.render (cleanTree L p r doc) = .ok out ∧
      (cleanTree L p r doc).all (fun n => n.Kind != NodeType.ElementNode ||
        n.Attr.all (fun a =>
          ["href".toList, "src".toList, "alt".toList, "title".toList].contains a.Key))
        = true := by
  exact CleanHTML_semantic_core L html p r out h

/-- Witness of C1: the sample library cleans `<html></html>` successfully. -/
theorem CleanHTML_only_semantic_attributes_witness :
    ("<html></html>".toList ≠ ([] : Str)) ∧ ∃ doc, sampleLib.parse "<html></html>".toList = .ok doc ∧
      sampleLib.render (cleanTree sampleLib false false doc)
        = .ok "<html><body></body></html>".toList ∧
      (cleanTree sampleLib false false doc).all (fun n => n.Kind != NodeType.ElementNode ||
        n.Attr.all (fun a =>
          ["href".toList, "src".toList, "alt".toList, "title".toList].contains a.Key))
        = true :=
  CleanHTML_only_semantic_attributes sampleLib "<html></html>".toList false false
    "<html><body></body></html>".toList (by decide)

/-- C6: for every document and both values of preserveMainOnly, no element of the cleaned tree
has the tag head, script, style, nav, iframe, footer or aside, and with removeImages set no
element has the tag img. -/
theorem cleanTree_has_no_noise_tag (L : Lib) (p r : Bool) (doc : Tree) :
    (cleanTree L p r doc).all (fun n => !(n.Kind == NodeType.ElementNode &&
      ["head".toList, "script".toList, "style".toList, "nav".toList, "iframe".toList,
        "footer".toList, "aside".toList].contains n.Data)) = true ∧
    (cleanTree L p true doc).all (fun n => !(n.Kind == NodeType.ElementNode &&
      n.Data == "img".toList)) = true := by
  constructor
  · refine all_mono _ _ ?_ _ (cleanTree_noiseFree L p r doc)
    intro n hn
    unfold noiseFree at hn
    cases hk : (n.Kind == NodeType.ElementNode)
    · rfl
    · rw [hk] at hn
      simp only [Bool.true_and, Bool.not_eq_true', Bool.or_eq_false_iff] at hn ⊢
      exact hn.1
  · refine all_mono _ _ ?_ _ (cleanTree_noiseFree L p true doc)
    intro n hn
    unfold noiseFree at hn
    cases hk : (n.Kind == NodeType.ElementNode)
    · rfl
    · rw [hk] at hn
      simp only [Bool.true_and, Bool.not_eq_true', Bool.or_eq_false_iff] at hn ⊢
      exact hn.2

/-- C8: for both flags and every library, `CleanHTML` on the empty string returns the empty
string with the error "HTML content cannot be empty", without consulting the parser, and
`ConvertToFormat` on the empty string returns that error for every format. -/
theorem empty_input_rejected (L : Lib) (p r : Bool) (format : Str) :
    CleanHTML L [] p r = ([], some "HTML content cannot be empty".toList) ∧
    ConvertToFormat L [] format = ([], some "HTML content cannot be empty".toList) ∧
    ConvertToFormat L [] "html".toList = ([], some "HTML content cannot be empty".toList) ∧
    (CleanHTML L [] p r).2 ≠ none ∧ (ConvertToFormat L [] format).2 ≠ none := by
  refine ⟨rfl, rfl, rfl, ?_, ?_⟩ <;> simp [CleanHTML, ConvertToFormat]

/-- C3, counterexample: in the page whose body is a block with class sidebar holding an
article with the text KEEP, the block matches the sidebar pattern; with preserveMainOnly false
the block is absent together with its subtree, but with preserveMainOnly set the content of
the article, part of that subtree, is the cleaned body. -/
theorem isolation_keeps_content_of_removed_block :
    classOrId sampleLib "sidebar".toList [] (element "div" [keyVal "class" "sidebar"]) = true ∧
    findFirst mainSelector [] sidebarArticleDoc = some (leaf (text "KEEP") .nil) ∧
    cleanTree sampleLib false false sidebarArticleDoc = cleanedPage .nil ∧
    cleanTree sampleLib true false sidebarArticleDoc = cleanedPage (leaf (text "KEEP") .nil) := by
  decide

/-- C3, amended: for every document and both flags, the output is the attribute pass applied
to one removal traversal of the tree left by isolation (the document itself when
preserveMainOnly is false); that tree, whose nodes are exactly those of the output, holds no
element whose class or id contains, after case folding, advertisement, sidebar, popup, modal,
cookie, social, share or comment; and wherever the traversal meets such an element, under
whatever ancestors, it drops it with the subtree it has at that point. -/
theorem category_patterns_absent (L : Lib) (p r : Bool) (doc : Tree) :
    cleanTree L p r doc = stripAttributes (prunedTree L p r doc) ∧
    prunedTree L p r doc = findRemove (removedSelector L r) [] (isolateMain L p doc) ∧
    isolateMain L false doc = doc ∧
    ["advertisement", "sidebar", "popup", "modal", "cookie", "social", "share",
      "comment"].all (fun pat =>
        !findAny (classOrId L pat.toList) [] (prunedTree L p r doc)) = true ∧
    (∀ (pat : String) (anc : List Node) (n : Node) (c s : Tree),
      pat ∈ ["advertisement", "sidebar", "popup", "modal", "cookie", "social", "share",
        "comment"] →
      classOrId L pat.toList anc n = true →
      findRemove (removedSelector L r) anc (.node n c s)
        = findRemove (removedSelector L r) anc s) := by
  have himp : ∀ (pat : String), pat ∈ ["advertisement", "sidebar", "popup", "modal",
      "cookie", "social", "share", "comment"] → ∀ anc n,
      classOrId L pat.toList anc n = true → removedSelector L r anc n = true := by
    intro pat hpat anc n hn
    simp only [List.mem_cons, List.mem_singleton, List.not_mem_nil, or_false] at hpat
    unfold removedSelector
    rcases hpat with h | h | h | h | h | h | h | h <;> subst h <;> rw [hn] <;>
      simp only [Bool.or_true, Bool.true_or]
  have habs : ∀ (pat : String), pat ∈ ["advertisement", "sidebar", "popup", "modal",
      "cookie", "social", "share", "comment"] →
      findAny (classOrId L pat.toList) [] (prunedTree L p r doc) = false := by
    intro pat hpat
    unfold prunedTree
    rw [removalPasses_eq]
    exact findAny_findRemove _ _ (himp pat hpat) _ _
  refine ⟨rfl, removalPasses_eq L r _, rfl, ?_, ?_⟩
  · simp only [List.all_cons, List.all_nil, Bool.and_true, Bool.and_eq_true,
      Bool.not_eq_true']
    refine ⟨habs _ (by simp), habs _ (by simp), habs _ (by simp), habs _ (by simp),
      habs _ (by simp), habs _ (by simp), habs _ (by simp), habs _ (by simp)⟩
  · intro pat anc n c s hpat hn
    exact drop_node L r anc n c s (himp pat hpat anc n hn)

/-- Witness of C3 amended: a block with class Sidebar-Left is dropped with its content. -/
theorem category_patterns_absent_witness :
    findRemove (removedSelector sampleLib false) []
      (.node (element "div" [keyVal "class" "Sidebar-Left"]) (leaf (text "x") .nil)
        (leaf (text "y") .nil))
      = findRemove (removedSelector sampleLib false) [] (leaf (text "y") .nil) :=
  (category_patterns_absent sampleLib false false .nil).2.2.2.2 "sidebar" []
    (element "div" [keyVal "class" "Sidebar-Left"]) (leaf (text "x") .nil)
    (leaf (text "y") .nil) (by decide) (by decide)

/-- C9: the ad pass removes a node exactly when it is an element with a class or id
attribute whose folded value contains "ad" and the folded text class + " " + id contains one
of the nine fragments; elements whose class is header, thread, already or read match the
generic signal and are not removed by the ad rule. -/
theorem ad_rule_two_tier (L : Lib) (anc : List Node) (n : Node) (c s : Tree) (tag : Str) :
    (adRule L anc n = true ↔
      (n.Kind = NodeType.ElementNode ∧
        (∃ a ∈ n.Attr, (a.Key = "class".toList ∨ a.Key = "id".toList) ∧
          Contains (L.ToLower a.Val) (L.ToLower "ad".toList) = true)) ∧
      ∃ pat ∈ ["advertisement".toList, "adsbygoogle".toList, "ad-".toList, "-ad-".toList,
          "-ad".toList, "_ad_".toList, "_ad".toList, "ad_".toList, " ad ".toList],
        Contains (L.ToLower (Attr n "class".toList ++ " ".toList ++ Attr n "id".toList)) pat
          = true) ∧
    findRemove (adRule L) anc (.node n c s) =
      (if adRule L anc n then findRemove (adRule L) anc s
       else .node n (findRemove (adRule L) (n :: anc) c) (findRemove (adRule L) anc s)) ∧
    ["header", "thread", "already", "read"].all (fun cls =>
      classOrId L "ad".toList anc ⟨NodeType.ElementNode, tag, [keyVal "class" cls]⟩ &&
      !adRule L anc ⟨NodeType.ElementNode, tag, [keyVal "class" cls]⟩) = true ∧
    findRemove (adRule L) [] adWordsDoc = adWordsDoc := by
  refine ⟨?_, rfl, ?_, ?_⟩
  · simp only [adRule, adCallback, adPatterns, classOrId, Selector.or,
      attributeSubstringSelector, matchAttribute, Bool.and_eq_true, Bool.or_eq_true,
      List.any_eq_true, beq_iff_eq]
    constructor
    · rintro ⟨hsel, pat, hpat, hc⟩
      refine ⟨?_, pat, hpat, hc⟩
      rcases hsel with ⟨hk, a, ha, hkey, hv⟩ | ⟨hk, a, ha, hkey, hv⟩
      · exact ⟨hk, a, ha, Or.inl hkey, hv⟩
      · exact ⟨hk, a, ha, Or.inr hkey, hv⟩
    · rintro ⟨⟨hk, a, ha, hkey | hkey, hv⟩, pat, hpat, hc⟩
      · exact ⟨Or.inl ⟨hk, a, ha, hkey, hv⟩, pat, hpat, hc⟩
      · exact ⟨Or.inr ⟨hk, a, ha, hkey, hv⟩, pat, hpat, hc⟩
  · have hagree : ∀ cls : String, asciiStr cls.toList = true →
        (classOrId L "ad".toList anc ⟨NodeType.ElementNode, tag, [keyVal "class" cls]⟩ &&
          !adRule L anc ⟨NodeType.ElementNode, tag, [keyVal "class" cls]⟩) =
        (classOrId sampleLib "ad".toList [] (element "div" [keyVal "class" cls]) &&
          !adRule sampleLib [] (element "div" [keyVal "class" cls])) := by
      intro cls hcls
      have hn : asciiNode ⟨NodeType.ElementNode, tag, [keyVal "class" cls]⟩ = true := by
        simp only [asciiNode, List.all_cons, List.all_nil, Bool.and_true]
        exact hcls
      unfold adRule
      rw [classOrId_agree L sampleLib _ anc _ hn (by decide),
        adCallback_agree L sampleLib _ hn]
      rfl
    simp only [List.all_cons, List.all_nil, Bool.and_true]
    rw [hagree _ (by decide), hagree _ (by decide), hagree _ (by decide),
      hagree _ (by decide)]
    decide
  · have hag : findRemove (adRule L) [] adWordsDoc = findRemove (adRule sampleLib) [] adWordsDoc := by
      apply findRemove_agree _ _ ?_ adWordsDoc [] (by decide)
      intro anc n hn
      unfold adRule
      rw [classOrId_agree L sampleLib _ anc _ hn (by decide),
        adCallback_agree L sampleLib _ hn]
    rw [hag]
    decide

/-- C4: for every document and both flags, no element whose class or id contains banner and
whose class does not contain header reaches the attribute pass; an element with class
ad-banner is matched by the ad rule and by the banner rule; an element with class
header-banner and no id matches the generic ad and banner signals, is removed by neither
rule, and is kept by the passes unless its tag is one of the removed tags. -/
theorem banner_rule_header_exception (L : Lib) (p r : Bool) (doc : Tree) (tag : Str)
    (anc : List Node) (c s : Tree)
    (htag : noiseFree r ⟨NodeType.ElementNode, tag, []⟩ = true) :
    findAny (bannerRule L) [] (prunedTree L p r doc) = false ∧
    (∀ n, bannerRule L anc n = (classOrId L "banner".toList anc n &&
      !(Contains (L.ToLower (Attr n "class".toList)) "header".toList))) ∧
    (adRule L anc ⟨NodeType.ElementNode, tag, [keyVal "class" "ad-banner"]⟩ = true ∧
      bannerRule L anc ⟨NodeType.ElementNode, tag, [keyVal "class" "ad-banner"]⟩ = true ∧
      findRemove (removedSelector L r) anc
        (.node ⟨NodeType.ElementNode, tag, [keyVal "class" "ad-banner"]⟩ c s)
        = findRemove (removedSelector L r) anc s) ∧
    (classOrId L "ad".toList anc
        ⟨NodeType.ElementNode, tag, [keyVal "class" "header-banner"]⟩ = true ∧
      classOrId L "banner".toList anc
        ⟨NodeType.ElementNode, tag, [keyVal "class" "header-banner"]⟩ = true ∧
      adRule L anc ⟨NodeType.ElementNode, tag, [keyVal "class" "header-banner"]⟩ = false ∧
      bannerRule L anc ⟨NodeType.ElementNode, tag, [keyVal "class" "header-banner"]⟩
        = false) ∧
    findRemove (removedSelector L r) anc
        (.node ⟨NodeType.ElementNode, tag, [keyVal "class" "header-banner"]⟩ c s)
      = .node ⟨NodeType.ElementNode, tag, [keyVal "class" "header-banner"]⟩
          (findRemove (removedSelector L r)
            (⟨NodeType.ElementNode, tag, [keyVal "class" "header-banner"]⟩ :: anc) c)
          (findRemove (removedSelector L r) anc s) ∧
    cleanTree L p r bannerDoc
      = cleanedPage (.node (element "div" []) (leaf (text "Site") .nil) .nil) := by
  have hasc : ∀ cls : String, asciiStr cls.toList = true →
      asciiNode ⟨NodeType.ElementNode, tag, [keyVal "class" cls]⟩ = true := by
    intro cls hcls
    simp only [asciiNode, List.all_cons, List.all_nil, Bool.and_true]
    exact hcls
  have had : ∀ cls : String, asciiStr cls.toList = true →
      adRule L anc ⟨NodeType.ElementNode, tag, [keyVal "class" cls]⟩
        = adRule sampleLib [] (element "div" [keyVal "class" cls]) := by
    intro cls hcls
    unfold adRule
    rw [classOrId_agree L sampleLib _ anc _ (hasc cls hcls) (by decide),
      adCallback_agree L sampleLib _ (hasc cls hcls)]
    rfl
  have hba : ∀ cls : String, asciiStr cls.toList = true →
      bannerRule L anc ⟨NodeType.ElementNode, tag, [keyVal "class" cls]⟩
        = bannerRule sampleLib [] (element "div" [keyVal "class" cls]) := by
    intro cls hcls
    unfold bannerRule
    rw [classOrId_agree L sampleLib _ anc _ (hasc cls hcls) (by decide),
      ToLower_agree L sampleLib _ (Attr_ascii _ "class".toList (hasc cls hcls))]
    rfl
  have hci : ∀ (val cls : String), asciiStr val.toList = true → asciiStr cls.toList = true →
      classOrId L val.toList anc ⟨NodeType.ElementNode, tag, [keyVal "class" cls]⟩
        = classOrId sampleLib val.toList [] (element "div" [keyVal "class" cls]) := by
    intro val cls hval hcls
    rw [classOrId_agree L sampleLib _ anc _ (hasc cls hcls) hval]
    rfl
  refine ⟨?_, fun _ => rfl, ⟨?_, ?_, ?_⟩, ⟨?_, ?_, ?_, ?_⟩, ?_, ?_⟩
  · unfold prunedTree
    rw [removalPasses_eq]
    refine findAny_findRemove _ _ ?_ _ _
    intro anc2 n hn
    unfold removedSelector
    rw [hn]
    simp only [Bool.or_true, Bool.true_or]
  · rw [had _ (by decide)]; decide
  · rw [hba _ (by decide)]; decide
  · apply drop_node
    unfold removedSelector
    rw [had _ (by decide)]
    have : adRule sampleLib [] (element "div" [keyVal "class" "ad-banner"]) = true := by
      decide
    rw [this]
    simp only [Bool.or_true, Bool.true_or]
  · rw [hci "ad" _ (by decide) (by decide)]; decide
  · rw [hci "banner" _ (by decide) (by decide)]; decide
  · rw [had _ (by decide)]; decide
  · rw [hba _ (by decide)]; decide
  · apply keep_node
    rw [removedSelector_element L r anc tag _ htag (by decide)]
    have h1 : otherSelector sampleLib false []
        (element "div" [keyVal "class" "header-banner"]) = false := by decide
    have h2 : attributeSubstringSelector sampleLib "class".toList "menu".toList []
        (element "div" [keyVal "class" "header-banner"]) = false := by decide
    rw [h1, h2]
    rfl
  · rw [cleanTree_agree L p r bannerDoc (by decide) (by decide)]
    cases r <;> decide

/-- Witness of C4: a section with class header-banner inside the body of a page. -/
theorem banner_rule_header_exception_witness :
    findRemove (removedSelector sampleLib false) [element "body" [], element "html" []]
        (.node ⟨NodeType.ElementNode, "section".toList, [keyVal "class" "header-banner"]⟩
          (leaf (text "Site") .nil) .nil)
      = .node ⟨NodeType.ElementNode, "section".toList, [keyVal "class" "header-banner"]⟩
          (leaf (text "Site") .nil) .nil :=
  (banner_rule_header_exception sampleLib false false bannerDoc "section".toList
    [element "body" [], element "html" []] (leaf (text "Site") .nil) .nil
    (by decide)).2.2.2.2.1
/-- C5: for every document, no element whose class contains menu and that has no main or
article ancestor reaches the attribute pass; such an element is dropped with its subtree
where it is met, while under a main or article ancestor a node that no other rule matches is
kept, in particular an element with class menu whose tag is not a removed tag; with
preserveMainOnly false the menu inside the article of the sample page survives and the menu
outside it does not. -/
theorem menu_rule_in_content_exception (L : Lib) (p r : Bool) (doc : Tree) (tag : Str)
    (anc : List Node) (n : Node) (c s : Tree)
    (htag : noiseFree r ⟨NodeType.ElementNode, tag, []⟩ = true) :
    findAny (menuRule L) [] (prunedTree L p r doc) = false ∧
    (anc.any (fun a => mainSelector [] a) = false →
      attributeSubstringSelector L "class".toList "menu".toList anc n = true →
      findRemove (removedSelector L r) anc (.node n c s)
        = findRemove (removedSelector L r) anc s) ∧
    (anc.any (fun a => mainSelector [] a) = true →
      otherSelector L r anc n = false →
      findRemove (removedSelector L r) anc (.node n c s)
        = .node n (findRemove (removedSelector L r) (n :: anc) c)
            (findRemove (removedSelector L r) anc s)) ∧
    (anc.any (fun a => mainSelector [] a) = true →
      findRemove (removedSelector L r) anc
          (.node ⟨NodeType.ElementNode, tag, [keyVal "class" "menu"]⟩ c s)
        = .node ⟨NodeType.ElementNode, tag, [keyVal "class" "menu"]⟩
            (findRemove (removedSelector L r)
              (⟨NodeType.ElementNode, tag, [keyVal "class" "menu"]⟩ :: anc) c)
            (findRemove (removedSelector L r) anc s)) ∧
    cleanTree L false r menuDoc
      = cleanedPage (.node (element "article" [])
          (.node (element "div" []) (leaf (text "Contents") .nil) .nil) .nil) := by
  refine ⟨?_, ?_, ?_, ?_, ?_⟩
  · unfold prunedTree
    rw [removalPasses_eq]
    refine findAny_findRemove _ _ ?_ _ _
    intro anc2 m hm
    unfold removedSelector
    rw [hm]
    simp only [Bool.or_true, Bool.true_or]
  · intro hanc hn
    apply drop_node
    rw [removedSelector_eq_other, menuRule_outside L anc n hanc hn, Bool.or_true]
  · intro hanc hn
    apply keep_node
    rw [removedSelector_eq_other, menuRule_inside L anc n hanc, ← otherSelector_anc L r anc,
      hn]
    rfl
  · intro hanc
    apply keep_node
    rw [removedSelector_element L r anc tag _ htag (by decide), hanc]
    have h1 : otherSelector sampleLib false [] (element "div" [keyVal "class" "menu"])
        = false := by decide
    rw [h1]
    simp only [Bool.not_true, Bool.and_false, Bool.or_false]
  · rw [cleanTree_agree_false L r menuDoc (by decide)]
    cases r <;> decide

/-- Witness of C5: a list with class menu met under an article is kept, and a block whose
class contains menu met directly under body is dropped. -/
theorem menu_rule_in_content_exception_witness :
    findRemove (removedSelector sampleLib false)
        [element "article" [], element "body" [], element "html" []]
        (.node ⟨NodeType.ElementNode, "ul".toList, [keyVal "class" "menu"]⟩
          (leaf (text "Contents") .nil) .nil)
      = .node ⟨NodeType.ElementNode, "ul".toList, [keyVal "class" "menu"]⟩
          (leaf (text "Contents") .nil) .nil ∧
    findRemove (removedSelector sampleLib false) [element "body" [], element "html" []]
        (.node (element "div" [keyVal "class" "Top-Menu"]) (leaf (text "Nav") .nil) .nil)
      = .nil :=
  ⟨(menu_rule_in_content_exception sampleLib false false menuDoc "ul".toList
      [element "article" [], element "body" [], element "html" []]
      (element "div" []) (leaf (text "Contents") .nil) .nil (by decide)).2.2.2.1 (by decide),
   (menu_rule_in_content_exception sampleLib false false menuDoc "ul".toList
      [element "body" [], element "html" []]
      (element "div" [keyVal "class" "Top-Menu"]) (leaf (text "Nav") .nil) .nil
      (by decide)).2.1 (by decide) (by decide)⟩

/-- C2: with preserveMainOnly set and a first main or article element whose child sequence is
`main`, isolation is `SetHtml` of the inner markup of `main` on every body, run before the
other passes, so the first body then holds exactly the parsed inner markup; on a page the
cleaned body is what the passes keep of that fragment and nothing else; and when the library
reads the markup of the text KEEP back as that text, the page
nav, article with KEEP, footer is cleaned to a body holding exactly the text KEEP. -/
theorem isolation_replaces_body (L : Lib) (r : Bool) (doc hd B main : Tree) (a b : Str)
    (hdoc : findFirst mainSelector [] doc = some main)
    (hpage : findFirst mainSelector [] (page hd B) = some main) :
    isolateMain L true doc
      = SetHtml L (tagSelector "body".toList) (Html L main) [] doc ∧
    cleanTree L true r doc = cleanTree L false r (isolateMain L true doc) ∧
    findFirst (tagSelector "body".toList) [] (isolateMain L true doc)
      = (findFirst (tagSelector "body".toList) [] doc).map
          (fun _ => L.parseFragment (Html L main)) ∧
    cleanTree L true r (page hd B) = cleanedPage (stripAttributes
      (findRemove (removedSelector L r) [element "body" [], element "html" []]
        (L.parseFragment (Html L main)))) ∧
    (L.parseFragment (Html L (leaf (text "KEEP") .nil)) = leaf (text "KEEP") .nil →
      cleanTree L true r (keepDoc a b) = cleanedPage (leaf (text "KEEP") .nil)) := by
  have hiso : isolateMain L true doc
      = SetHtml L (tagSelector "body".toList) (Html L main) [] doc := by
    unfold isolateMain
    rw [hdoc]
    rfl
  refine ⟨hiso, ?_, ?_, cleanTree_isolated_page L r hd B main hpage, ?_⟩
  · simp only [cleanTree, prunedTree, isolateMain, Bool.false_eq_true, if_false]
  · rw [hiso, findFirst_SetHtml]
  · intro hkeep
    have hfirst : findFirst mainSelector [] (keepDoc a b) = some (leaf (text "KEEP") .nil) :=
      rfl
    have h : cleanTree L true r (keepDoc a b) = _ :=
      cleanTree_isolated_page L r .nil _ _ hfirst
    rw [h, hkeep]
    have hk : findRemove (removedSelector L r) [element "body" [], element "html" []]
        (leaf (text "KEEP") .nil) = leaf (text "KEEP") .nil := by
      have ht : removedSelector L r [element "body" [], element "html" []] (text "KEEP")
          = false := removedSelector_text L r _ "KEEP".toList
      unfold leaf
      rw [keep_node L r _ _ _ _ ht]
      rfl
    rw [hk]
    rfl

/-- Witness of C2: the sample library on the page nav, article with KEEP, footer. -/
theorem isolation_replaces_body_witness :
    cleanTree sampleLib true false (keepDoc "Home".toList "Imprint".toList)
      = cleanedPage (leaf (text "KEEP") .nil) :=
  (isolation_replaces_body sampleLib false (keepDoc "Home".toList "Imprint".toList) .nil
    (.node (element "article" []) (leaf (text "KEEP") .nil) .nil) (leaf (text "KEEP") .nil)
    "Home".toList "Imprint".toList (by decide) (by decide)).2.2.2.2 (by decide)

/-- Whatever the library, once the parser yields the tree of `<html class=ad-x></html>` and an
empty sibling sequence is serialised to the empty string, the first run succeeds with the
empty string and a run on that result is rejected. -/
theorem empty_output_then_rejected (L : Lib) (h : Str) (hne : h ≠ [])
    (hparse : L.parse h = .ok adHtmlDoc) (hrender : L.render .nil = .ok []) :
    CleanHTML L h false false = ([], none) ∧
    CleanHTML L [] false false = ([], some "HTML content cannot be empty".toList) := by
  have hclean : cleanTree L false false adHtmlDoc = .nil := by
    have hasc : adHtmlDoc.all asciiNode = true := by decide
    rw [cleanTree_agree_false L false adHtmlDoc hasc]
    decide
  refine ⟨?_, rfl⟩
  unfold CleanHTML
  simp only [hne, if_false, hparse, hclean, hrender]

/-- C7, counterexample: with the sample library `<html class=ad-x></html>` is cleaned to the
empty string without error, and cleaning the empty string is an error; `<body class=ad-x>hi
</body>` is cleaned to `<html></html>`, and cleaning that gives `<html><body></body></html>`.
In both runs the second result differs from the first. -/
theorem rerun_changes_output :
    "<html class=ad-x></html>".toList ≠ ([] : Str) ∧
    CleanHTML sampleLib "<html class=ad-x></html>".toList false false = ([], none) ∧
    CleanHTML sampleLib [] false false ≠ ([], none) ∧
    CleanHTML sampleLib "<body class=ad-x>hi</body>".toList false false
      = ("<html></html>".toList, none) ∧
    CleanHTML sampleLib "<html></html>".toList false false
      = ("<html><body></body></html>".toList, none) ∧
    CleanHTML sampleLib "<html></html>".toList false false
      ≠ ("<html></html>".toList, none) := by
  decide

/-- C7, amended: when `CleanHTML` with both flags false succeeds with `out`, the tree it
serialised is a fixed point: the whole pipeline, the removal passes alone and the attribute
pass alone each return it unchanged; and `CleanHTML` on `out` returns `out` again whenever
`out` is non-empty and the parser reads it back as that tree up to re-inserted head
elements. -/
theorem cleaned_tree_fixed_point (L : Lib) (h out : Str)
    (hrun : CleanHTML L h false false = (out, none)) :
    ∃ doc, L.parse h = .ok doc ∧ L.render (cleanTree L false false doc) = .ok out ∧
      cleanTree L false false (cleanTree L false false doc) = cleanTree L false false doc ∧
      prunedTree L false false (cleanTree L false false doc) = cleanTree L false false doc ∧
      stripAttributes (cleanTree L false false doc) = cleanTree L false false doc ∧
      (∀ doc2, out ≠ [] → L.parse out = .ok doc2 →
        findRemove (tagSelector "head".toList) [] doc2 = cleanTree L false false doc →
        CleanHTML L out false false = (out, none)) := by
  obtain ⟨_, doc, hparse, hrender, _⟩ :=
    CleanHTML_semantic_core L h false false out hrun
  have hs : (cleanTree L false false doc).all semanticOnly = true := by
    unfold cleanTree; exact stripAttributes_semantic _
  have hf := cleanTree_noiseFree L false false doc
  have hpr : prunedTree L false false (cleanTree L false false doc)
      = cleanTree L false false doc := by
    unfold prunedTree
    simp only [isolateMain, Bool.false_eq_true, if_false]
    exact removalPasses_clean L _ hs hf
  refine ⟨doc, hparse, hrender, cleanTree_fixed L doc, hpr, stripAttributes_eq_self _ hs, ?_⟩
  intro doc2 hne hparse2 hhead
  have hpr2 : prunedTree L false false doc2 = cleanTree L false false doc := by
    have hsel : ∀ anc n, ((tagSelector "head".toList).or (removedSelector L false)) anc n
        = removedSelector L false anc n := by
      intro anc n
      simp only [Selector.or, removedSelector, noiseSelector]
      cases tagSelector "head".toList anc n <;> simp
    have h1 : prunedTree L false false doc2
        = findRemove (removedSelector L false) [] doc2 := by
      unfold prunedTree
      simp only [isolateMain, Bool.false_eq_true, if_false]
      exact removalPasses_eq L false doc2
    rw [h1, ← findRemove_congr _ _ hsel doc2 [], ← findRemove_findRemove, hhead,
      ← removalPasses_eq]
    have := hpr
    unfold prunedTree at this
    simpa only [isolateMain, Bool.false_eq_true, if_false] using this
  have hct : cleanTree L false false doc2 = cleanTree L false false doc := by
    show stripAttributes (prunedTree L false false doc2) = _
    rw [hpr2]
    exact stripAttributes_eq_self _ hs
  unfold CleanHTML
  simp only [hne, if_false, hparse2, hct, hrender]

/-- Witness of C7 amended: the sample library on `<html></html>`, whose output is read back
with a re-inserted head. -/
theorem cleaned_tree_fixed_point_witness :
    CleanHTML sampleLib "<html></html>".toList false false
      = ("<html><body></body></html>".toList, none) ∧
    CleanHTML sampleLib "<html><body></body></html>".toList false false
      = ("<html><body></body></html>".toList, none) :=
  ⟨by decide,
   match cleaned_tree_fixed_point sampleLib "<html></html>".toList
      "<html><body></body></html>".toList (by decide) with
   | ⟨doc, hparse, _, _, _, _, hre⟩ => by
     have hdoc : doc = page .nil .nil := by
       have : sampleLib.parse "<html></html>".toList = .ok (page .nil .nil) := rfl
       rw [this] at hparse
       exact (Except.ok.inj hparse).symm
     subst hdoc
     exact hre (page .nil .nil) (by decide) rfl (by decide)⟩

/-- C10, counterexample: in the page whose article directly contains a block with class
sidebar-menu, the class contains menu and the block lies in the first article, yet with
preserveMainOnly false the block is not in the cleaned tree: the sidebar rule removes it. -/
theorem menu_in_article_not_always_kept :
    findFirst mainSelector [] sidebarMenuDoc
      = some (.node (element "div" [keyVal "class" "sidebar-menu"])
          (leaf (text "x") .nil) .nil) ∧
    attributeSubstringSelector sampleLib "class".toList "menu".toList []
      (element "div" [keyVal "class" "sidebar-menu"]) = true ∧
    cleanTree sampleLib false false sidebarMenuDoc
      = cleanedPage (leaf (element "article" []) .nil) := by
  decide

/-- C10, amended: on a page whose first main or article element has the child sequence
`main`, read back unchanged by the fragment parser, cleaning with preserveMainOnly set leaves
in body what the passes keep of `main` met directly under body, which holds no element whose
class contains menu outside a further main or article, so a leading element of `main` whose
class contains menu is dropped; with the wrapper in place, as under preserveMainOnly false,
a node under a main or article ancestor is kept provided no other removal rule matches
it. -/
theorem menu_exception_lost_by_isolation (L : Lib) (r : Bool) (hd B main : Tree)
    (anc : List Node) (n : Node) (c s : Tree)
    (hfirst : findFirst mainSelector [] (page hd B) = some main)
    (hrt : L.parseFragment (Html L main) = main) :
    cleanTree L true r (page hd B) = cleanedPage (stripAttributes
      (findRemove (removedSelector L r) [element "body" [], element "html" []] main)) ∧
    findAny (menuRule L) [element "body" [], element "html" []]
      (findRemove (removedSelector L r) [element "body" [], element "html" []] main)
      = false ∧
    (main = .node n c s →
      attributeSubstringSelector L "class".toList "menu".toList [] n = true →
      cleanTree L true r (page hd B) = cleanedPage (stripAttributes
        (findRemove (removedSelector L r) [element "body" [], element "html" []] s))) ∧
    (anc.any (fun a => mainSelector [] a) = true →
      otherSelector L r anc n = false →
      findRemove (removedSelector L r) anc (.node n c s)
        = .node n (findRemove (removedSelector L r) (n :: anc) c)
            (findRemove (removedSelector L r) anc s)) := by
  have hclean := cleanTree_isolated_page L r hd B main hfirst
  rw [hrt] at hclean
  refine ⟨hclean, ?_, ?_, ?_⟩
  · refine findAny_findRemove _ _ ?_ _ _
    intro anc2 m hm
    unfold removedSelector
    rw [hm]
    simp only [Bool.or_true, Bool.true_or]
  · intro hmain hn
    rw [hclean, hmain]
    have hdrop : removedSelector L r [element "body" [], element "html" []] n = true := by
      rw [removedSelector_eq_other,
        menuRule_outside L [element "body" [], element "html" []] n (by decide) hn,
        Bool.or_true]
    rw [drop_node L r _ n c s hdrop]
  · intro hanc hn
    apply keep_node
    rw [removedSelector_eq_other, menuRule_inside L anc n hanc, ← otherSelector_anc L r anc,
      hn]
    rfl

/-- Witness of C10 amended: the page whose article holds one block with class menu is cleaned
to an empty body when preserveMainOnly is set, and the block, met under the article, is
kept. -/
theorem menu_exception_lost_by_isolation_witness :
    cleanTree sampleLib true false menuInArticleDoc = cleanedPage .nil ∧
    findRemove (removedSelector sampleLib false)
        [element "article" [], element "body" [], element "html" []] menuBlock
      = menuBlock :=
  ⟨(menu_exception_lost_by_isolation sampleLib false .nil
      (.node (element "article" []) menuBlock .nil) menuBlock
      [element "article" [], element "body" [], element "html" []]
      (element "div" [keyVal "class" "menu"]) (leaf (text "x") .nil) .nil
      (by decide) (by decide)).2.2.1 rfl (by decide),
   (menu_exception_lost_by_isolation sampleLib false .nil
      (.node (element "article" []) menuBlock .nil) menuBlock
      [element "article" [], element "body" [], element "html" []]
      (element "div" [keyVal "class" "menu"]) (leaf (text "x") .nil) .nil
      (by decide) (by decide)).2.2.2 (by decide) (by decide)⟩


end WebfetchClean
